import Mathlib

/-!
Verification development for the rs-tiled core: a shallow Lean embedding of the
resource-loading, gid-resolution, layer-data-decoding and property-parsing code,
together with theorems settling the specification claims.

Conventions of the embedding:
* Rust machine integers are `Nat` with explicit bounds (`% 2^32`) where overflow
  or masking matters.
* A quick-xml event stream is a finite list of read results; each element is
  either a decoded event or a tokenizer error. Reading past the end of the list
  behaves as reading `Eof`, as quick-xml does.
* Fallible Rust functions returning `Result` become `Except Err`.
* External collaborators that are not part of this repository (the flate2/zstd
  decompressors, the f32 text format) are abstracted as explicit function
  parameters, so every theorem states exactly which collaborator behavior it
  relies on.
-/

namespace RsTiled

/-- Attribute list of a start or empty tag: name and raw textual value. -/
abbrev Attrs := List (String × String)

/-- A structural token produced by the underlying xml reader.
Mirrors the `quick_xml::events::Event` cases the parsing code inspects;
`other` stands for the remaining event kinds (CData, Decl, PI, DocType),
which every loop in the source ignores. -/
inductive Event where
  | startTag (name : String) (attrs : Attrs)
  | emptyTag (name : String) (attrs : Attrs)
  | endTag (name : String)
  | text (s : String)
  | comment (s : String)
  | eof
  | other
deriving DecidableEq, Repr

/-- One result of `read_event`: either an event or a tokenizer error
(the payload is the error display text). -/
abbrev ReadItem := Except String Event

/-- A finite token stream; the list is consumed front to back and an empty
list behaves as a reader that keeps returning `Eof`. -/
abbrev Stream := List ReadItem

/-- The error enum of the crate (`crate::Error`), restricted to the variants the
modelled code can produce. Payloads that the claims never inspect are kept only
as far as the source meaningfully distinguishes them. -/
inductive Err where
  | xmlDecodingError (msg : String)
  | prematureEnd (msg : String)
  | invalidEncodingFormat (encoding compression : Option String)
  | base64DecodingError
  | decompressingError
  | csvDecodingError
  | invalidPropertyValue (description : String)
  | unknownPropertyType (typeName : String)
  | malformedAttributes (msg : String)
deriving DecidableEq, Repr

/-! ## Characters, numbers and strings -/

/-- Byte count of one character in utf-8; Rust `str::len` counts these. -/
def charUtf8Size (c : Char) : Nat :=
  if c.toNat < 0x80 then 1
  else if c.toNat < 0x800 then 2
  else if c.toNat < 0x10000 then 3
  else 4

/-- Rust `str::len`: the utf-8 byte length. -/
def utf8Len (cs : List Char) : Nat := (cs.map charUtf8Size).sum

/-- Rust `str::is_ascii`. -/
def isAsciiChar (c : Char) : Bool := c.toNat < 128

def isDigitChar (c : Char) : Bool := '0' ≤ c ∧ c ≤ '9'

/-- Value of one hexadecimal digit, upper or lower case. -/
def hexDigit? (c : Char) : Option Nat :=
  if '0' ≤ c ∧ c ≤ '9' then some (c.toNat - '0'.toNat)
  else if 'a' ≤ c ∧ c ≤ 'f' then some (c.toNat - 'a'.toNat + 10)
  else if 'A' ≤ c ∧ c ≤ 'F' then some (c.toNat - 'A'.toNat + 10)
  else none

/-- Digits-to-value accumulator for an arbitrary radix. -/
def digitsValue (radix : Nat) (digit : Char → Option Nat) : List Char → Option Nat
  | [] => some 0
  | c :: cs =>
    match digit c, digitsValue radix digit cs with
    | some d, some acc => some (d * radix ^ cs.length + acc)
    | _, _ => none

/-- Embedding of `u8::from_str_radix(s, 16)`: an optional leading plus sign followed by at
least one hex digit, value bounded by the u8 range. -/
def fromStrRadix16u8 (cs : List Char) : Option Nat :=
  let digits := match cs with
    | '+' :: rest => rest
    | rest => rest
  if digits.isEmpty then none
  else match digitsValue 16 hexDigit? digits with
    | some v => if v < 256 then some v else none
    | none => none

/-- Embedding of `u32::from_str` (used by `str::parse::<u32>()`): optional plus sign, decimal
digits, u32 range; the error display text is returned on failure. -/
def parseU32 (cs : List Char) : Except String Nat :=
  if cs.isEmpty then .error "cannot parse integer from empty string"
  else
    let digits := match cs with
      | '+' :: rest => rest
      | rest => rest
    if digits.isEmpty ∨ ¬ digits.all isDigitChar then .error "invalid digit found in string"
    else match digitsValue 10 (fun c => if isDigitChar c then some (c.toNat - '0'.toNat) else none) digits with
      | some v =>
        if v < 2 ^ 32 then .ok v else .error "number too large to fit in target type"
      | none => .error "invalid digit found in string"

/-- Embedding of `i32::from_str`: optional sign, decimal digits, i32 range. -/
def parseI32 (cs : List Char) : Except String Int :=
  if cs.isEmpty then .error "cannot parse integer from empty string"
  else
    let (neg, digits) := match cs with
      | '+' :: rest => (false, rest)
      | '-' :: rest => (true, rest)
      | rest => (false, rest)
    if digits.isEmpty ∨ ¬ digits.all isDigitChar then .error "invalid digit found in string"
    else match digitsValue 10 (fun c => if isDigitChar c then some (c.toNat - '0'.toNat) else none) digits with
      | some v =>
        if neg then
          if v ≤ 2 ^ 31 then .ok (-(v : Int)) else .error "number too small to fit in target type"
        else
          if v < 2 ^ 31 then .ok (v : Int) else .error "number too large to fit in target type"
      | none => .error "invalid digit found in string"

/-- Embedding of `bool::from_str`: exactly the strings true and false. -/
def parseBoolStr (s : String) : Except String Bool :=
  if s = "true" then .ok true
  else if s = "false" then .ok false
  else .error "provided string was not \x60true\x60 or \x60false\x60"

/-- Ascii whitespace recognised by quick-xml `inplace_trim_start` and
`inplace_trim_end`. -/
def isXmlWs (c : Char) : Bool := c = ' ' ∨ c = '\t' ∨ c = '\n' ∨ c = '\r'

/-- Trim whitespace from both ends of a character list. -/
def trimWs (cs : List Char) : List Char :=
  ((cs.dropWhile isXmlWs).reverse.dropWhile isXmlWs).reverse

/-! ## Color (`src/properties.rs`, `impl FromStr for Color`) -/

/-- Embedding of `Color` from `src/properties.rs`: four 8-bit channels. -/
structure Color where
  alpha : Nat
  red : Nat
  green : Nat
  blue : Nat
deriving DecidableEq, Repr

/-- Embedding of `str::strip_prefix` for the single hash character: remove one leading hash
if present, otherwise leave the text unchanged. -/
def stripHash (s : List Char) : List Char :=
  match s with
  | c :: rest => if c = '#' then rest else c :: rest
  | [] => []

/-- The body of `Color::from_str` after the hash strip: match on the byte
length of what remains: 6 ascii bytes give RGB with alpha 255, 8 ascii bytes
give ARGB, anything else is an error. Each pair of bytes is decoded with
`u8::from_str_radix(_, 16)`. -/
def colorFromStripped (s : List Char) : Option Color :=
  if utf8Len s = 6 then
    if s.all isAsciiChar then
      match fromStrRadix16u8 (s.take 2), fromStrRadix16u8 ((s.drop 2).take 2),
          fromStrRadix16u8 ((s.drop 4).take 2) with
      | some r, some g, some b => some ⟨0xFF, r, g, b⟩
      | _, _, _ => none
    else none
  else if utf8Len s = 8 then
    if s.all isAsciiChar then
      match fromStrRadix16u8 (s.take 2), fromStrRadix16u8 ((s.drop 2).take 2),
          fromStrRadix16u8 ((s.drop 4).take 2), fromStrRadix16u8 ((s.drop 6).take 2) with
      | some a, some r, some g, some b => some ⟨a, r, g, b⟩
      | _, _, _, _ => none
    else none
  else none

/-- Embedding of `Color::from_str`: strip one leading hash, then decode the remainder. -/
def colorFromStr (s : List Char) : Option Color :=
  colorFromStripped (stripHash s)

/-! ## Property values (`src/properties.rs`) -/

/-- Embedding of `PropertyValue` from `src/properties.rs`. Floats are kept as the raw
accepted text because f32 semantics are outside the embedding; nested class
properties are an association list standing for the `Properties` hash map. -/
inductive PropertyValue where
  | boolValue (b : Bool)
  | floatValue (raw : String)
  | intValue (n : Int)
  | colorValue (c : Color)
  | stringValue (s : String)
  | fileValue (s : String)
  | objectValue (n : Nat)
  | classValue (propertyType : String) (properties : List (String × PropertyValue))
deriving Repr

/-- The abstracted f32 text format: given the value text, either the accepted
text or the parse error display text. `PropertyValue::new` is parameterised by
this collaborator; no claim depends on it. -/
abbrev F32Format := String → Except String String

/-- Embedding of `PropertyValue::new`: dispatch on the property type string, in source arm
order; the color arm is guarded by a byte length greater than one, and any
unmatched type name falls to the unknown-property-type error. -/
def pvNew (f32 : F32Format) (propertyType value : String) : Except Err PropertyValue :=
  if propertyType = "bool" then
    match parseBoolStr value with
    | .ok b => .ok (.boolValue b)
    | .error e => .error (.invalidPropertyValue e)
  else if propertyType = "float" then
    match f32 value with
    | .ok raw => .ok (.floatValue raw)
    | .error e => .error (.invalidPropertyValue e)
  else if propertyType = "int" then
    match parseI32 value.toList with
    | .ok n => .ok (.intValue n)
    | .error e => .error (.invalidPropertyValue e)
  else if propertyType = "color" ∧ utf8Len value.toList > 1 then
    match colorFromStr value.toList with
    | some c => .ok (.colorValue c)
    | none => .error (.invalidPropertyValue "Couldn\x27t parse color")
  else if propertyType = "string" then .ok (.stringValue value)
  else if propertyType = "object" then
    match parseU32 value.toList with
    | .ok n => .ok (.objectValue n)
    | .error e => .error (.invalidPropertyValue e)
  else if propertyType = "file" then .ok (.fileValue value)
  else .error (.unknownPropertyType propertyType)

/-! ## Gid table and resolver (`src/util.rs`) -/

/-- One entry of the per-map tileset table (`MapTilesetGid`): the first gid of
the tileset and the shared tileset handle, modelled by its identity. -/
structure MapTilesetGid where
  firstGid : Nat
  tileset : Nat
deriving DecidableEq, Repr

/-- Embedding of `get_tileset_for_gid` from `src/util.rs`: iterate the table with indices,
reversed, and return the first entry (hence the last in table order) whose
`first_gid` does not exceed the target gid. -/
def getTilesetForGid (tilesets : List MapTilesetGid) (gid : Nat) :
    Option (Nat × MapTilesetGid) :=
  ((tilesets.enum).reverse).find? (fun p => p.2.firstGid ≤ gid)

/-- A decoded cell (`LayerTileData`): flip flags, the local tile id and the
index of the owning table entry. -/
structure LayerTileData where
  tilesetIndex : Nat
  id : Nat
  flipH : Bool
  flipV : Bool
  flipD : Bool
deriving DecidableEq, Repr

/-- Modelled from the spec: `LayerTileData::from_bits` is called by the layer
decoder but its definition is not part of the provided slice. Per the spec,
a non-zero raw 32-bit cell value packs the three orientation flags in the top
bits; stripping them yields the masked identifier, `0` denotes no tile, and a
non-zero masked identifier is resolved through `get_tileset_for_gid`, the local
id being the masked identifier minus the selected entry first gid. -/
def layerTileDataFromBits (bits : Nat) (tilesets : List MapTilesetGid) :
    Option LayerTileData :=
  let b := bits % 2 ^ 32
  let flipH := b / 2 ^ 31 % 2 = 1
  let flipV := b / 2 ^ 30 % 2 = 1
  let flipD := b / 2 ^ 29 % 2 = 1
  let gid := b % 2 ^ 29
  if gid = 0 then none
  else
    match getTilesetForGid tilesets gid with
    | some (idx, entry) => some ⟨idx, gid - entry.firstGid, flipH, flipV, flipD⟩
    | none => none

/-! ## Layer data decoding (`src/layers/tile/util.rs`) -/

/-- Value of one base64 symbol in the standard alphabet. -/
def b64Char? (c : Char) : Option Nat :=
  if 'A' ≤ c ∧ c ≤ 'Z' then some (c.toNat - 'A'.toNat)
  else if 'a' ≤ c ∧ c ≤ 'z' then some (c.toNat - 'a'.toNat + 26)
  else if '0' ≤ c ∧ c ≤ '9' then some (c.toNat - '0'.toNat + 52)
  else if c = '+' then some 62
  else if c = '/' then some 63
  else none

/-- Standard-alphabet, canonical-padding base64 decoding, as configured in
`parse_base64` (`GeneralPurpose::new(&STANDARD, PAD)`): input length must be a
multiple of four, padding appears only in the final quantum, and bits dropped
by padding must be zero. -/
def base64Decode : List Char → Except Unit (List Nat)
  | [] => .ok []
  | c1 :: c2 :: c3 :: c4 :: rest =>
    match b64Char? c1, b64Char? c2 with
    | some a, some b =>
      if c3 = '=' then
        if c4 = '=' ∧ rest = [] then
          if b % 16 = 0 then .ok [a * 4 + b / 16] else .error ()
        else .error ()
      else
        match b64Char? c3 with
        | some c =>
          if c4 = '=' then
            if rest = [] then
              if c % 4 = 0 then .ok [a * 4 + b / 16, b % 16 * 16 + c / 4] else .error ()
            else .error ()
          else
            match b64Char? c4 with
            | some d =>
              match base64Decode rest with
              | .ok tl => .ok ((a * 4 + b / 16) :: (b % 16 * 16 + c / 4) :: (c % 4 * 64 + d) :: tl)
              | .error e => .error e
            | none => .error ()
        | none => .error ()
    | _, _ => .error ()
  | _ => .error ()

/-- Embedding of `parse_base64`: loop over events; the first text event is trimmed and
base64-decoded; an end tag named data yields the empty byte sequence; `Eof`
(also modelled by stream exhaustion) is a premature end; every other event is
skipped; a tokenizer error is wrapped and propagated. -/
def parseBase64 : Stream → Except Err (List Nat × Stream)
  | [] => .error (.prematureEnd "Ran out of XML data")
  | .error e :: _ => .error (.xmlDecodingError e)
  | .ok (.text s) :: rest =>
    match base64Decode (trimWs s.toList) with
    | .ok bytes => .ok (bytes, rest)
    | .error _ => .error .base64DecodingError
  | .ok (.endTag n) :: rest =>
    if n = "data" then .ok ([], rest) else parseBase64 rest
  | .ok .eof :: _ => .error (.prematureEnd "Ran out of XML data")
  | .ok _ :: rest => parseBase64 rest

/-- Split a character list on commas; mirrors `str::split` used by
`decode_csv` (always at least one field, empty fields included). -/
def splitOnComma (cs : List Char) : List (List Char) :=
  match cs with
  | [] => [[]]
  | c :: rest =>
    let r := splitOnComma rest
    if c = ',' then [] :: r
    else
      match r with
      | f :: fs => (c :: f) :: fs
      | [] => [[c]]

/-- Embedding of `decode_csv`: same event loop as `parse_base64`; the first text event is
split on commas, every field trimmed and parsed as u32, the first parse failure
becoming a csv decoding error; each parsed value is resolved with
`LayerTileData::from_bits`. -/
def decodeCsv (tilesets : List MapTilesetGid) : Stream →
    Except Err (List (Option LayerTileData) × Stream)
  | [] => .error (.prematureEnd "Ran out of XML data")
  | .error e :: _ => .error (.xmlDecodingError e)
  | .ok (.text s) :: rest =>
    match (splitOnComma s.toList).mapM (fun f => (parseU32 (trimWs f)).toOption) with
    | some bits => .ok (bits.map (fun b => layerTileDataFromBits b tilesets), rest)
    | none => .error .csvDecodingError
  | .ok (.endTag n) :: rest =>
    if n = "data" then .ok ([], rest) else decodeCsv tilesets rest
  | .ok .eof :: _ => .error (.prematureEnd "Ran out of XML data")
  | .ok _ :: rest => decodeCsv tilesets rest

/-- Group a byte list into complete 4-byte chunks, dropping a trailing
incomplete chunk; mirrors `slice::chunks_exact(4)`. -/
def chunks4 : List Nat → List (Nat × Nat × Nat × Nat)
  | a :: b :: c :: d :: rest => (a, b, c, d) :: chunks4 rest
  | _ => []

/-- Embedding of `convert_to_tiles`: interpret each complete 4-byte chunk as a
little-endian u32 and resolve it with `LayerTileData::from_bits`. -/
def convertToTiles (data : List Nat) (tilesets : List MapTilesetGid) :
    List (Option LayerTileData) :=
  (chunks4 data).map fun (a, b, c, d) =>
    layerTileDataFromBits (a + b * 2 ^ 8 + c * 2 ^ 16 + d * 2 ^ 24) tilesets

/-- The external decompressors used by the compressed branches: zlib and gzip
from flate2 and the optional zstd decoder. Each maps the decoded base64 bytes
to either the inflated bytes or an io error. They are collaborators outside
this repository, so they are parameters of the embedding. -/
structure Decompressors where
  zlib : List Nat → Except Unit (List Nat)
  gzip : List Nat → Except Unit (List Nat)
  zstd : List Nat → Except Unit (List Nat)

/-- Embedding of `process_decoder`: run the decoder to the end, wrapping any io failure as a
decompressing error. -/
def processDecoder (d : List Nat → Except Unit (List Nat)) (data : List Nat) :
    Except Err (List Nat) :=
  match d data with
  | .ok out => .ok out
  | .error _ => .error .decompressingError

/-- Embedding of `parse_data_line`: dispatch on the encoding and compression attribute pair,
in source arm order; the zstd arm exists only when the zstd capability is
compiled in; every other pair is an invalid-encoding-format error carrying both
attribute values. -/
def parseDataLine (zstdFeature : Bool) (dec : Decompressors)
    (encoding compression : Option String) (stream : Stream)
    (tilesets : List MapTilesetGid) : Except Err (List (Option LayerTileData)) :=
  if encoding = some "csv" ∧ compression = none then
    (decodeCsv tilesets stream).map (·.1)
  else if encoding = some "base64" ∧ compression = none then
    (parseBase64 stream).map (fun r => convertToTiles r.1 tilesets)
  else if encoding = some "base64" ∧ compression = some "zlib" then
    (parseBase64 stream).bind (fun r => (processDecoder dec.zlib r.1).map
      (fun v => convertToTiles v tilesets))
  else if encoding = some "base64" ∧ compression = some "gzip" then
    (parseBase64 stream).bind (fun r => (processDecoder dec.gzip r.1).map
      (fun v => convertToTiles v tilesets))
  else if zstdFeature ∧ encoding = some "base64" ∧ compression = some "zstd" then
    (parseBase64 stream).bind (fun r => (processDecoder dec.zstd r.1).map
      (fun v => convertToTiles v tilesets))
  else .error (.invalidEncodingFormat encoding compression)

/-- The supported pairs of §4.4 of the spec, written from the table: csv
uncompressed, base64 uncompressed, base64 with zlib or gzip, and base64 with
zstd when the capability is enabled. -/
def supportedPair (zstdFeature : Bool) (encoding compression : Option String) : Prop :=
  (encoding = some "csv" ∧ compression = none)
  ∨ (encoding = some "base64" ∧ compression = none)
  ∨ (encoding = some "base64" ∧ compression = some "zlib")
  ∨ (encoding = some "base64" ∧ compression = some "gzip")
  ∨ (zstdFeature ∧ encoding = some "base64" ∧ compression = some "zstd")

instance (zf : Bool) (e c : Option String) : Decidable (supportedPair zf e c) := by
  unfold supportedPair; infer_instance

/-! ## Resource cache (`src/template.rs`, external-reference arm) -/

/-- State visible to one load session: the tileset cache (path to shared
handle), plus instrumentation making sharing observable in the model — how many
times the reader/parser pipeline ran, and a counter allocating fresh handle
identities the way `Arc::new` produces distinct pointers. -/
structure CacheState where
  tilesets : List (String × Nat)
  parseCount : Nat
  nextId : Nat
deriving DecidableEq, Repr

/-- Embedding of `ResourceCache::get_tileset`. -/
def cacheGetTileset (st : CacheState) (path : String) : Option Nat :=
  (st.tilesets.find? (fun e => e.1 = path)).map (·.2)

/-- Embedding of `ResourceCache::insert_tileset`. -/
def cacheInsertTileset (st : CacheState) (path : String) (handle : Nat) : CacheState :=
  { st with tilesets := (path, handle) :: st.tilesets }

/-- The external-reference arm of `Template::parse_external_template`
(`src/template.rs` lines 94 to 100): look the canonical path up in the cache;
on a hit return the cached handle; on a miss run `parse_tileset` (modelled as
allocating a fresh handle and counting one parse), insert that same handle,
and return it. -/
def loadExternalTileset (st : CacheState) (path : String) : Nat × CacheState :=
  match cacheGetTileset st path with
  | some ts => (ts, st)
  | none =>
    let tileset := st.nextId
    let st := { st with parseCount := st.parseCount + 1, nextId := st.nextId + 1 }
    (tileset, cacheInsertTileset st path tileset)

/-! ## Wang sets (`src/tileset/wangset.rs`) -/

/-- Embedding of `WangTile` payload: the wang id data; its content is opaque to the claims. -/
structure WangTile where
  wangId : List Nat
deriving DecidableEq, Repr

/-- A Rust `HashMap` has no insertion order: iteration order is unspecified and
unrelated to declaration order. The map is therefore represented by its
canonical key-sorted association list; `insert` overwrites an existing key. -/
def hashMapInsert (id : Nat) (t : WangTile) : List (Nat × WangTile) → List (Nat × WangTile)
  | [] => [(id, t)]
  | (k, v) :: rest =>
    if id < k then (id, t) :: (k, v) :: rest
    else if id = k then (id, t) :: rest
    else (k, v) :: hashMapInsert id t rest

/-- One child element routed by the `parse_tag` dispatch inside
`WangSet::new`; the spec treats attribute extraction and child parsing as
collaborators, so each child arrives as its already-parsed payload. -/
inductive WangSetChild where
  | wangcolor (name : String) (tile : Option Nat)
  | wangtile (id : Nat) (t : WangTile)
  | propertiesTag
  | unknown
deriving DecidableEq, Repr

/-- Collections built by `WangSet::new`: declared wang colors and the wang
tile map. -/
structure WangSetData where
  wangColors : List (String × Option Nat)
  wangTiles : List (Nat × WangTile)
deriving DecidableEq, Repr

/-- One step of the child-dispatch loop of `WangSet::new`
(`src/tileset/wangset.rs` lines 74 to 89): a `wangcolor` child is pushed onto
the color vector, a `wangtile` child is inserted into the hash map keyed by
its local id, anything else leaves both collections unchanged. -/
def wangSetStep (acc : WangSetData) (ch : WangSetChild) : WangSetData :=
  match ch with
  | .wangcolor name tile => { acc with wangColors := acc.wangColors ++ [(name, tile)] }
  | .wangtile id t => { acc with wangTiles := hashMapInsert id t acc.wangTiles }
  | _ => acc

/-- Embedding of `WangSet::new`: fold the dispatch step over the declared children, starting
from empty collections. -/
def wangSetNew (children : List WangSetChild) : WangSetData :=
  children.foldl wangSetStep ⟨[], []⟩

/-- The wang color payload of a child, when it is a wang color declaration. -/
def wangColorOf? (ch : WangSetChild) : Option (String × Option Nat) :=
  match ch with
  | .wangcolor name tile => some (name, tile)
  | _ => none

/-! ## Animation frames (`src/animation.rs`) -/

/-- Embedding of `Frame`: local tile id and display duration. -/
structure Frame where
  tileId : Nat
  duration : Nat
deriving DecidableEq, Repr

/-- The `get_attrs` iteration of `Frame::new`: scan the attributes in order,
a matching name parses its value (a parse failure aborts with a
malformed-attributes error), later occurrences overwrite earlier ones. -/
def frameAttrsFold : Attrs → Option Nat × Option Nat → Except Err (Option Nat × Option Nat)
  | [], acc => .ok acc
  | (k, v) :: rest, (t, d) =>
    if k = "tileid" then
      match parseU32 v.toList with
      | .ok n => frameAttrsFold rest (some n, d)
      | .error _ => .error (.malformedAttributes "Error parsing attribute tileid")
    else if k = "duration" then
      match parseU32 v.toList with
      | .ok n => frameAttrsFold rest (t, some n)
      | .error _ => .error (.malformedAttributes "Error parsing attribute duration")
    else frameAttrsFold rest (t, d)

/-- Embedding of `Frame::new`: extract the required `tileid` and `duration` attributes;
a missing one is a malformed-attributes error, checked in declaration order. -/
def frameNew (attrs : Attrs) : Except Err Frame :=
  match frameAttrsFold attrs (none, none) with
  | .error e => .error e
  | .ok (some t, some d) => .ok ⟨t, d⟩
  | .ok (none, _) => .error (.malformedAttributes "Missing attribute: tileid")
  | .ok (_, none) => .error (.malformedAttributes "Missing attribute: duration")

/-- The `parse_tag` loop of `parse_animation`: a start or empty tag named
frame runs `Frame::new` and pushes the frame; the end tag named animation
breaks; `Eof` (or stream exhaustion) is a premature end; a tokenizer error is
wrapped; every other event is ignored. -/
def parseAnimationLoop : Stream → List Frame → Except Err (List Frame × Stream)
  | [], _ => .error (.prematureEnd "Document ended before we expected.")
  | .error e :: _, _ => .error (.xmlDecodingError e)
  | .ok ev :: rest, acc =>
    match ev with
    | .startTag n attrs =>
      if n = "frame" then
        match frameNew attrs with
        | .ok f => parseAnimationLoop rest (acc ++ [f])
        | .error e => .error e
      else parseAnimationLoop rest acc
    | .emptyTag n attrs =>
      if n = "frame" then
        match frameNew attrs with
        | .ok f => parseAnimationLoop rest (acc ++ [f])
        | .error e => .error e
      else parseAnimationLoop rest acc
    | .endTag n =>
      if n = "animation" then .ok (acc, rest) else parseAnimationLoop rest acc
    | .eof => .error (.prematureEnd "Document ended before we expected.")
    | _ => parseAnimationLoop rest acc

/-- Embedding of `parse_animation`: run the loop with an empty frame vector. -/
def parseAnimation (stream : Stream) : Except Err (List Frame × Stream) :=
  parseAnimationLoop stream []

/-- The frames declared inside a consumed event prefix, in document order:
every start or empty tag named frame whose attributes parse, in the order the
tags appear. -/
def framesIn (l : Stream) : List Frame :=
  l.filterMap fun it =>
    match it with
    | .ok (.startTag n attrs) => if n = "frame" then (frameNew attrs).toOption else none
    | .ok (.emptyTag n attrs) => if n = "frame" then (frameNew attrs).toOption else none
    | _ => none

/-! ## Token source strategies (`src/parse/xml/mod.rs`) -/

/-- The two conforming implementations of the `Reader` capability:
`SyncReader` and `AsyncReader`. -/
inductive ReaderStrategy where
  | sync
  | async
deriving DecidableEq, Repr

/-- One step of the underlying `quick_xml::Reader` tokenizer over reader state
`σ`: the next read result and the advanced state. Both strategies hold the same
`RawReader` type; `read_event_into_async` is the suspending form of
`read_event_into` on that same tokenizer, so one step function describes both
(the suspension itself is an execution-mode capability, not a token-level
behavior). -/
abbrev RawStep (σ : Type) := σ → ReadItem × σ

/-- Embedding of `Reader::read_event_into` as implemented by `SyncReader` (delegating to
`RawReader::read_event_into`) and by `AsyncReader` (delegating to
`RawReader::read_event_into_async`). -/
def readEventInto (step : RawStep σ) : ReaderStrategy → σ → ReadItem × σ
  | .sync, s => step s
  | .async, s => step s

/-- The token sequence a higher-level parse observes when drawing `n` tokens
through the chosen strategy. -/
def tokenRun (step : RawStep σ) (strat : ReaderStrategy) : σ → Nat → List ReadItem
  | _, 0 => []
  | s, n + 1 =>
    let (e, s') := readEventInto step strat s
    e :: tokenRun step strat s' n

/-! ## Property parsing lookahead (`src/properties.rs`) -/

/-- Embedding of `has_properties_tag_next`: read events, skipping whitespace-only text and
comments; a start tag named properties answers true; a tokenizer error breaks
out of the loop (the error is dropped) and answers false; any other event —
including `Eof`, which the catch-all arm matches — answers false. The pair
returned is the answer and the remaining stream. -/
def hasPropertiesTagNext : Stream → Bool × Stream
  | [] => (false, [])
  | .error _ :: rest => (false, rest)
  | .ok ev :: rest =>
    match ev with
    | .startTag n _ => if n = "properties" then (true, rest) else (false, rest)
    | .text s => if trimWs s.toList = [] then hasPropertiesTagNext rest else (false, rest)
    | .comment _ => hasPropertiesTagNext rest
    | _ => (false, rest)

/-- Association map standing for the `Properties` hash map, canonically sorted
by name so that equal maps have equal representations. -/
def propsInsert (k : String) (v : PropertyValue) :
    List (String × PropertyValue) → List (String × PropertyValue)
  | [] => [(k, v)]
  | (k0, v0) :: rest =>
    if k < k0 then (k, v) :: (k0, v0) :: rest
    else if k = k0 then (k, v) :: rest
    else (k0, v0) :: propsInsert k v rest

/-- The `t == "class"` branch of `parse_properties_inner` (`src/properties.rs`
lines 169 to 186), parameterised by the recursive `parse_properties` call `K`:
run the lookahead; when it finds a nested properties block, parse it and store
the class value with those members; otherwise store the class value with an
empty member map. The name is `k`, the `propertytype` attribute (defaulted to
the empty string) is `pt`. -/
def parsePropertyClassBranch
    (K : Stream → Except Err (List (String × PropertyValue) × Stream))
    (k pt : String) (p : List (String × PropertyValue)) (stream : Stream) :
    Except Err (List (String × PropertyValue) × Stream) :=
  match hasPropertiesTagNext stream with
  | (true, rest) =>
    match K rest with
    | .ok (props, rest') => .ok (propsInsert k (.classValue pt props) p, rest')
    | .error e => .error e
  | (false, rest) => .ok (propsInsert k (.classValue pt []) p, rest)

/-- A lookahead item that `has_properties_tag_next` transparently skips:
whitespace-only text or a comment. -/
def lookaheadSkippable (it : ReadItem) : Bool :=
  match it with
  | .ok (.text s) => trimWs s.toList = []
  | .ok (.comment _) => true
  | _ => false

/-- An event that the text-scanning loops of `parse_base64` and `decode_csv`
ignore: anything that is not text, not an end tag named data, not `Eof`, and
not a tokenizer error. -/
def dataSkippable (it : ReadItem) : Bool :=
  match it with
  | .ok (.text _) => false
  | .ok (.endTag n) => ¬ n = "data"
  | .ok .eof => false
  | .error _ => false
  | _ => true

/-- A decompressor assignment used to instantiate witness statements:
every input inflates to the empty byte sequence. -/
def trivialDecompressors : Decompressors :=
  ⟨fun _ => .ok [], fun _ => .ok [], fun _ => .ok []⟩

/-! ## Theorems -/

/-- Claim C6: the blocking and the suspending token-source strategy are
interchangeable under identical higher-level parsing code — over the same
underlying tokenizer and reader state they produce identical token sequences
(events and error shapes alike, in identical order), so any parse computed
from the observed tokens yields the same result under either strategy. -/
theorem C6_reader_strategies_interchangeable :
    ∀ (σ α : Type) (step : RawStep σ) (s : σ) (n : Nat)
      (parse : List ReadItem → α),
      tokenRun step .sync s n = tokenRun step .async s n
      ∧ parse (tokenRun step .sync s n) = parse (tokenRun step .async s n) := by
  intro σ α step s n parse
  have h : ∀ (s : σ) (n : Nat), tokenRun step .sync s n = tokenRun step .async s n := by
    intro s n
    induction n generalizing s with
    | zero => rfl
    | succ n ih => simp [tokenRun, readEventInto, ih]
  exact ⟨h s n, by rw [h s n]⟩

/-- Claim C3: within one load session over one shared cache, requesting the
same canonical tileset path twice parses at most once and hands the same
shared handle to both requesters: the second request is satisfied from the
cache, returning the very handle inserted by the first. -/
theorem C3_cache_parses_once_shares_handle :
    ∀ (st : CacheState) (path : String),
      (loadExternalTileset (loadExternalTileset st path).2 path).1
        = (loadExternalTileset st path).1
      ∧ (loadExternalTileset (loadExternalTileset st path).2 path).2
        = (loadExternalTileset st path).2
      ∧ (loadExternalTileset st path).2.parseCount ≤ st.parseCount + 1 := by
  intro st path
  cases h : cacheGetTileset st path with
  | some ts =>
    simp [loadExternalTileset, h]
  | none =>
    have h2 : cacheGetTileset
        { tilesets := (path, st.nextId) :: st.tilesets,
          parseCount := st.parseCount + 1, nextId := st.nextId + 1 } path
        = some st.nextId := by
      unfold cacheGetTileset
      rw [List.find?_cons_of_pos _ (by simp)]
      rfl
    simp [loadExternalTileset, h, cacheInsertTileset, h2]

/-- Length of the complete-chunk grouping: one chunk per four bytes. -/
theorem chunks4_length : ∀ data : List Nat, (chunks4 data).length = data.length / 4 := by
  intro data
  induction data using chunks4.induct with
  | case1 a b c d rest ih =>
    simp only [chunks4, List.length_cons, ih]
    omega
  | case2 l h =>
    rcases l with _ | ⟨a, _ | ⟨b, _ | ⟨c, _ | ⟨d, r⟩⟩⟩⟩
    · rfl
    · simp [chunks4]
    · simp [chunks4]
    · simp [chunks4]
    · exact (h a b c d r rfl).elim

/-- Grouping into complete chunks ignores everything past the last complete
chunk. -/
theorem chunks4_take : ∀ data : List Nat,
    chunks4 (data.take (data.length / 4 * 4)) = chunks4 data := by
  intro data
  induction data using chunks4.induct with
  | case1 a b c d rest ih =>
    have hlen : (a :: b :: c :: d :: rest).length / 4 * 4
        = rest.length / 4 * 4 + 4 := by
      simp only [List.length_cons]
      have : rest.length + 1 + 1 + 1 + 1 = rest.length + 4 := by omega
      rw [this, Nat.add_div_right _ (by omega)]
      ring
    rw [hlen]
    show chunks4 (a :: b :: c :: d :: rest.take (rest.length / 4 * 4)) = _
    simp only [chunks4, ih]
  | case2 l h =>
    rcases l with _ | ⟨a, _ | ⟨b, _ | ⟨c, _ | ⟨d, r⟩⟩⟩⟩
    · rfl
    · simp [chunks4]
    · simp [chunks4]
    · simp [chunks4]
    · exact (h a b c d r rfl).elim

/-- Claim C8: when the decoded byte sequence length is not a multiple of four,
the base64-path chunking silently ignores the trailing one to three bytes:
the output has exactly one cell per complete 4-byte chunk and coincides with
the conversion of the truncated input; no error is produced (the conversion is
total). -/
theorem C8_trailing_bytes_ignored :
    ∀ (data : List Nat) (ts : List MapTilesetGid),
      data.length % 4 ≠ 0 →
      (convertToTiles data ts).length = data.length / 4
      ∧ convertToTiles data ts = convertToTiles (data.take (data.length / 4 * 4)) ts := by
  intro data ts _
  refine ⟨?_, ?_⟩
  · simp [convertToTiles, chunks4_length]
  · simp [convertToTiles, chunks4_take]

/-- Claim C8 witness: a 6-byte input yields exactly one cell, the same as its
4-byte truncation. -/
theorem C8_witness :
    (6 : Nat) % 4 ≠ 0
    ∧ (convertToTiles [1, 0, 0, 0, 9, 9] []).length = 6 / 4
    ∧ convertToTiles [1, 0, 0, 0, 9, 9] []
      = convertToTiles ([1, 0, 0, 0, 9, 9].take (6 / 4 * 4)) [] := by
  have h := C8_trailing_bytes_ignored [1, 0, 0, 0, 9, 9] [] (by decide)
  exact ⟨by decide, h.1, h.2⟩

/-- Claim C9: a color-typed property whose textual value is at most one byte
long is rejected with an unknown-property-type error naming color, because the
color match arm requires a byte length greater than one and such values fall
through to the catch-all arm. -/
theorem C9_short_color_unknown_type :
    ∀ (f32 : F32Format) (value : String), utf8Len value.toList ≤ 1 →
      pvNew f32 "color" value = .error (.unknownPropertyType "color") := by
  intro f32 value h
  unfold pvNew
  rw [if_neg (by decide), if_neg (by decide), if_neg (by decide),
    if_neg (by intro hc; exact absurd hc.2 (by omega)),
    if_neg (by decide), if_neg (by decide), if_neg (by decide)]

/-- Claim C9 witness: the one-byte value 5 with type color produces the
unknown-property-type error. -/
theorem C9_witness :
    utf8Len "5".toList ≤ 1
    ∧ pvNew (fun _ => .error "") "color" "5" = .error (.unknownPropertyType "color") :=
  ⟨by decide, C9_short_color_unknown_type (fun _ => .error "") "5" (by decide)⟩

/-- Claim C2: every encoding/compression pair outside the supported matrix —
csv uncompressed, base64 uncompressed, base64 with zlib or gzip, and base64
with zstd exactly when the zstd capability is enabled — fails with the
invalid-encoding-format error carrying both supplied strings; in particular
csv with zlib fails carrying exactly those two strings. -/
theorem C2_unsupported_pair_invalid_encoding :
    (∀ (zf : Bool) (dec : Decompressors) (e c : Option String)
        (st : Stream) (ts : List MapTilesetGid),
        ¬ supportedPair zf e c →
        parseDataLine zf dec e c st ts = .error (.invalidEncodingFormat e c))
    ∧ ∀ (zf : Bool) (dec : Decompressors) (st : Stream) (ts : List MapTilesetGid),
        parseDataLine zf dec (some "csv") (some "zlib") st ts
          = .error (.invalidEncodingFormat (some "csv") (some "zlib")) := by
  have main : ∀ (zf : Bool) (dec : Decompressors) (e c : Option String)
      (st : Stream) (ts : List MapTilesetGid),
      ¬ supportedPair zf e c →
      parseDataLine zf dec e c st ts = .error (.invalidEncodingFormat e c) := by
    intro zf dec e c st ts h
    simp only [supportedPair, not_or] at h
    obtain ⟨h1, h2, h3, h4, h5⟩ := h
    unfold parseDataLine
    rw [if_neg h1, if_neg h2, if_neg h3, if_neg h4, if_neg h5]
  exact ⟨main, fun zf dec st ts =>
    main zf dec (some "csv") (some "zlib") st ts (by simp [supportedPair])⟩

/-- Claim C2 witness: the concrete pair csv with zlib is unsupported and
errors carrying exactly those strings. -/
theorem C2_witness :
    ¬ supportedPair false (some "csv") (some "zlib")
    ∧ parseDataLine false trivialDecompressors (some "csv") (some "zlib") [] []
      = .error (.invalidEncodingFormat (some "csv") (some "zlib")) :=
  ⟨by decide,
    C2_unsupported_pair_invalid_encoding.1 false trivialDecompressors
      (some "csv") (some "zlib") [] [] (by decide)⟩

/-- Claim C7: property-value color conversion rejects the two-character text
hash-1-2 with an invalid-property-value error; the 6-digit forms with and
without the hash both parse to alpha 255 and the given channels; the 8-digit
form parses its leading pair as alpha; the leading hash is optional; and hex
digits are case-insensitive. -/
theorem C7_color_conversion :
    (∀ f32 : F32Format,
        pvNew f32 "color" "#12" = .error (.invalidPropertyValue "Couldn\x27t parse color"))
    ∧ (∀ f32 : F32Format,
        pvNew f32 "color" "#A1B2C3" = .ok (.colorValue ⟨0xFF, 0xA1, 0xB2, 0xC3⟩))
    ∧ (∀ f32 : F32Format,
        pvNew f32 "color" "A1B2C3" = .ok (.colorValue ⟨0xFF, 0xA1, 0xB2, 0xC3⟩))
    ∧ (∀ f32 : F32Format,
        pvNew f32 "color" "#11A1B2C3" = .ok (.colorValue ⟨0x11, 0xA1, 0xB2, 0xC3⟩))
    ∧ (∀ cs : List Char, cs.head? ≠ some '#' →
        colorFromStr ('#' :: cs) = colorFromStr cs)
    ∧ colorFromStr "a1b2c3".toList = colorFromStr "A1B2C3".toList
    ∧ hexDigit? 'a' = hexDigit? 'A' ∧ hexDigit? 'b' = hexDigit? 'B'
    ∧ hexDigit? 'c' = hexDigit? 'C' ∧ hexDigit? 'd' = hexDigit? 'D'
    ∧ hexDigit? 'e' = hexDigit? 'E' ∧ hexDigit? 'f' = hexDigit? 'F' := by
  refine ⟨fun _ => rfl, fun _ => rfl, fun _ => rfl, fun _ => rfl, ?_,
    rfl, rfl, rfl, rfl, rfl, rfl, rfl⟩
  intro cs h
  show colorFromStripped (stripHash ('#' :: cs)) = colorFromStripped (stripHash cs)
  congr 1
  cases cs with
  | nil => rfl
  | cons c rest =>
    have hc : ¬ c = '#' := by
      intro hc
      exact h (by simp [hc])
    simp [stripHash, hc]

/-- Claim C7 witness: hash-optionality applied at the concrete 6-digit text. -/
theorem C7_witness :
    "A1B2C3".toList.head? ≠ some '#'
    ∧ colorFromStr ('#' :: "A1B2C3".toList) = colorFromStr "A1B2C3".toList :=
  ⟨by decide, C7_color_conversion.2.2.2.2.1 "A1B2C3".toList (by decide)⟩

/-- Pairwise relatedness of a mapped list pulls back along the map. -/
theorem pairwise_of_pairwise_map {α β : Type} {R : β → β → Prop} (f : α → β) :
    ∀ l : List α, (l.map f).Pairwise R → l.Pairwise (fun a b => R (f a) (f b)) := by
  intro l
  induction l with
  | nil => intro _; exact List.Pairwise.nil
  | cons a l ih =>
    intro h
    rw [List.map_cons, List.pairwise_cons] at h
    exact List.pairwise_cons.mpr
      ⟨fun b hb => h.1 (f b) (List.mem_map_of_mem f hb), ih h.2⟩

/-- Searching a reversed list for the first match yields the last matching
element of the original list. -/
theorem find?_reverse_eq_getLast?_filter (l : List α) (p : α → Bool) :
    l.reverse.find? p = (l.filter p).getLast? := by
  induction l with
  | nil => rfl
  | cons a l ih =>
    rw [List.reverse_cons, List.find?_append, ih, List.filter_cons]
    by_cases h : p a = true
    · rw [if_pos h]
      cases hfl : (l.filter p).getLast? with
      | none =>
        have he : l.filter p = [] := List.getLast?_eq_none_iff.mp hfl
        simp [he, List.find?_cons, h]
      | some x =>
        cases hl : l.filter p with
        | nil => rw [hl] at hfl; simp at hfl
        | cons b bs =>
          rw [hl] at hfl
          rw [List.getLast?_cons_cons, hfl]
          rfl
    · rw [if_neg h]
      have : List.find? p [a] = none := by
        simp [List.find?_cons, h]
      rw [this, Option.or_none]

/-- In a list that is pairwise related by `R`, every member is the last
element or related to it. -/
theorem getLast?_bound_of_pairwise {α : Type} {R : α → α → Prop} :
    ∀ (l : List α), l.Pairwise R → ∀ x ∈ l, ∀ e, l.getLast? = some e → x = e ∨ R x e := by
  intro l
  induction l with
  | nil => intro _ x hx; cases hx
  | cons a l ih =>
    intro hp x hx e he
    cases l with
    | nil =>
      have hxa : x = a := by simpa using hx
      have hea : a = e := by simpa using he
      exact Or.inl (hxa.trans hea)
    | cons b bs =>
      rw [List.getLast?_cons_cons] at he
      rcases List.mem_cons.mp hx with rfl | hx2
      · exact Or.inr ((List.pairwise_cons.mp hp).1 e (List.mem_of_getLast?_eq_some he))
      · exact ih (List.pairwise_cons.mp hp).2 x hx2 e he

/-- Claim C1: the resolver returns exactly the last table entry (in
declaration order) whose first gid does not exceed the target; on a table that
is non-decreasing in first gid — the format-level invariant for tables built
in declaration order — that entry has the greatest first gid not exceeding the
target; when no entry qualifies the resolver returns nothing rather than
panicking; and a raw cell value of zero resolves to no tile for every table,
without consulting it. -/
theorem C1_gid_resolution :
    (∀ (ts : List MapTilesetGid) (gid : Nat),
        getTilesetForGid ts gid
          = ((ts.enum).filter (fun p => p.2.firstGid ≤ gid)).getLast?)
    ∧ (∀ (ts : List MapTilesetGid) (gid : Nat),
        ts.Pairwise (fun a b => a.firstGid ≤ b.firstGid) →
        ∀ i e, getTilesetForGid ts gid = some (i, e) →
          ∀ e' ∈ ts, e'.firstGid ≤ gid → e'.firstGid ≤ e.firstGid)
    ∧ (∀ (ts : List MapTilesetGid) (gid : Nat),
        (∀ e ∈ ts, gid < e.firstGid) → getTilesetForGid ts gid = none)
    ∧ (∀ ts : List MapTilesetGid, layerTileDataFromBits 0 ts = none) := by
  have hchar : ∀ (ts : List MapTilesetGid) (gid : Nat),
      getTilesetForGid ts gid
        = ((ts.enum).filter (fun p => p.2.firstGid ≤ gid)).getLast? := by
    intro ts gid
    exact find?_reverse_eq_getLast?_filter _ _
  refine ⟨hchar, ?_, ?_, fun ts => rfl⟩
  · intro ts gid hsorted i e hfind e' hmem hle
    have hp : (ts.enum).Pairwise (fun a b => a.2.firstGid ≤ b.2.firstGid) := by
      have h' : ((ts.enum).map Prod.snd).Pairwise (fun a b => a.firstGid ≤ b.firstGid) := by
        rw [List.enum_map_snd ts]
        exact hsorted
      exact pairwise_of_pairwise_map Prod.snd ts.enum h'
    have hp2 : ((ts.enum).filter (fun p => p.2.firstGid ≤ gid)).Pairwise
        (fun a b => a.2.firstGid ≤ b.2.firstGid) := hp.filter _
    have hmem2 : ∃ x ∈ ts.enum, x.2 = e' := by
      rw [← List.enum_map_snd ts] at hmem
      exact List.mem_map.mp hmem
    obtain ⟨x, hxmem, hx2⟩ := hmem2
    have hxf : x ∈ (ts.enum).filter (fun p => p.2.firstGid ≤ gid) := by
      rw [List.mem_filter]
      exact ⟨hxmem, by simp [hx2, hle]⟩
    have hlast : ((ts.enum).filter (fun p => p.2.firstGid ≤ gid)).getLast? = some (i, e) := by
      rw [← hchar ts gid]
      exact hfind
    rcases getLast?_bound_of_pairwise _ hp2 x hxf (i, e) hlast with rfl | hR
    · rw [← hx2]
    · rw [← hx2]
      exact hR
  · intro ts gid h
    unfold getTilesetForGid
    rw [List.find?_eq_none]
    intro x hx
    have hx2 : x.2 ∈ ts := by
      rw [← List.enum_map_snd ts]
      exact List.mem_map_of_mem _ (List.mem_reverse.mp hx)
    simp only [decide_eq_true_eq]
    exact fun hle => absurd (h x.2 hx2) (by omega)

/-- Claim C1 witness: on the two-entry table with first gids 1 and 3, gid 2
resolves to the first entry, which is maximal among qualifying entries; on a
table whose sole first gid is 5, gid 2 resolves to nothing. -/
theorem C1_witness :
    ([⟨1, 10⟩, ⟨3, 11⟩] : List MapTilesetGid).Pairwise (fun a b => a.firstGid ≤ b.firstGid)
    ∧ getTilesetForGid [⟨1, 10⟩, ⟨3, 11⟩] 2 = some (0, ⟨1, 10⟩)
    ∧ (∀ e' ∈ ([⟨1, 10⟩, ⟨3, 11⟩] : List MapTilesetGid),
        e'.firstGid ≤ 2 → e'.firstGid ≤ (⟨1, 10⟩ : MapTilesetGid).firstGid)
    ∧ getTilesetForGid [⟨5, 10⟩] 2 = none := by
  have hsorted : ([⟨1, 10⟩, ⟨3, 11⟩] : List MapTilesetGid).Pairwise
      (fun a b => a.firstGid ≤ b.firstGid) := by
    simp [List.pairwise_cons]
  refine ⟨hsorted, by decide, ?_, ?_⟩
  · exact C1_gid_resolution.2.1 [⟨1, 10⟩, ⟨3, 11⟩] 2 hsorted 0 ⟨1, 10⟩ (by decide)
  · exact C1_gid_resolution.2.2.1 [⟨5, 10⟩] 2 (by decide)

/-- The lookahead loop passes transparently over whitespace-only text and
comment events. -/
theorem hasPropertiesTagNext_append_skips :
    ∀ junk : Stream, (∀ it ∈ junk, lookaheadSkippable it) →
      ∀ rest, hasPropertiesTagNext (junk ++ rest) = hasPropertiesTagNext rest := by
  intro junk
  induction junk with
  | nil => intro _ rest; rfl
  | cons it junk ih =>
    intro h rest
    have hit : lookaheadSkippable it := h it (by simp)
    have h' : ∀ x ∈ junk, lookaheadSkippable x := fun x hx => h x (by simp [hx])
    cases it with
    | error e => simp [lookaheadSkippable] at hit
    | ok ev =>
      cases ev with
      | text s =>
        have hws : trimWs s.toList = [] := by simpa [lookaheadSkippable] using hit
        simp only [List.cons_append, hasPropertiesTagNext]
        rw [if_pos hws]
        exact ih h' rest
      | comment s => simpa [hasPropertiesTagNext] using ih h' rest
      | startTag n attrs => simp [lookaheadSkippable] at hit
      | emptyTag n attrs => simp [lookaheadSkippable] at hit
      | endTag n => simp [lookaheadSkippable] at hit
      | eof => simp [lookaheadSkippable] at hit
      | other => simp [lookaheadSkippable] at hit

/-- Claim C10: when the reader errors, or the input is exhausted, while
looking ahead for a nested properties block after a class-typed property, the
lookahead concludes there are no nested properties and swallows the
error/end-of-input: the class value is stored with an empty nested-properties
mapping and nothing is propagated at that point. -/
theorem C10_class_lookahead_swallows_errors :
    (∀ junk : Stream, (∀ it ∈ junk, lookaheadSkippable it) →
        ∀ (e : String) (rest : Stream),
          hasPropertiesTagNext (junk ++ .error e :: rest) = (false, rest))
    ∧ (∀ junk : Stream, (∀ it ∈ junk, lookaheadSkippable it) →
        hasPropertiesTagNext junk = (false, []))
    ∧ (∀ (K : Stream → Except Err (List (String × PropertyValue) × Stream))
        (k pt : String) (p : List (String × PropertyValue)) (junk : Stream),
        (∀ it ∈ junk, lookaheadSkippable it) →
        ∀ (e : String) (rest : Stream),
          parsePropertyClassBranch K k pt p (junk ++ .error e :: rest)
            = .ok (propsInsert k (.classValue pt []) p, rest))
    ∧ (∀ (K : Stream → Except Err (List (String × PropertyValue) × Stream))
        (k pt : String) (p : List (String × PropertyValue)) (junk : Stream),
        (∀ it ∈ junk, lookaheadSkippable it) →
          parsePropertyClassBranch K k pt p junk
            = .ok (propsInsert k (.classValue pt []) p, [])) := by
  have h1 : ∀ junk : Stream, (∀ it ∈ junk, lookaheadSkippable it) →
      ∀ (e : String) (rest : Stream),
        hasPropertiesTagNext (junk ++ .error e :: rest) = (false, rest) := by
    intro junk h e rest
    rw [hasPropertiesTagNext_append_skips junk h]
    rfl
  have h2 : ∀ junk : Stream, (∀ it ∈ junk, lookaheadSkippable it) →
      hasPropertiesTagNext junk = (false, []) := by
    intro junk h
    simpa using hasPropertiesTagNext_append_skips junk h []
  refine ⟨h1, h2, ?_, ?_⟩
  · intro K k pt p junk h e rest
    unfold parsePropertyClassBranch
    rw [h1 junk h e rest]
  · intro K k pt p junk h
    unfold parsePropertyClassBranch
    rw [h2 junk h]

/-- Claim C10 witness: with one comment during lookahead and a tokenizer error
behind it, the class property is stored with empty members and no error
escapes. -/
theorem C10_witness :
    (∀ it ∈ ([.ok (.comment "note")] : Stream), lookaheadSkippable it)
    ∧ parsePropertyClassBranch (fun s => .ok ([], s)) "a" "T" []
        ([.ok (.comment "note")] ++ .error "boom" :: [])
      = .ok ([("a", .classValue "T" [])], []) :=
  ⟨by decide,
    C10_class_lookahead_swallows_errors.2.2.1 (fun s => .ok ([], s)) "a" "T" []
      [.ok (.comment "note")] (by decide) "boom" []⟩

/-- The text-scanning loop of `parse_base64` ignores events that are neither
text, nor the closing data tag, nor `Eof`. -/
theorem parseBase64_append_skips :
    ∀ junk : Stream, (∀ it ∈ junk, dataSkippable it) →
      ∀ rest, parseBase64 (junk ++ rest) = parseBase64 rest := by
  intro junk
  induction junk with
  | nil => intro _ rest; rfl
  | cons it junk ih =>
    intro h rest
    have hit : dataSkippable it := h it (by simp)
    have h' : ∀ x ∈ junk, dataSkippable x := fun x hx => h x (by simp [hx])
    cases it with
    | error e => simp [dataSkippable] at hit
    | ok ev =>
      cases ev with
      | text s => simp [dataSkippable] at hit
      | eof => simp [dataSkippable] at hit
      | endTag n =>
        have hn : ¬ n = "data" := by simpa [dataSkippable] using hit
        simpa [parseBase64, hn] using ih h' rest
      | startTag n attrs => simpa [parseBase64] using ih h' rest
      | emptyTag n attrs => simpa [parseBase64] using ih h' rest
      | comment s => simpa [parseBase64] using ih h' rest
      | other => simpa [parseBase64] using ih h' rest

/-- The text-scanning loop of `decode_csv` ignores the same events. -/
theorem decodeCsv_append_skips :
    ∀ (ts : List MapTilesetGid) (junk : Stream), (∀ it ∈ junk, dataSkippable it) →
      ∀ rest, decodeCsv ts (junk ++ rest) = decodeCsv ts rest := by
  intro ts junk
  induction junk with
  | nil => intro _ rest; rfl
  | cons it junk ih =>
    intro h rest
    have hit : dataSkippable it := h it (by simp)
    have h' : ∀ x ∈ junk, dataSkippable x := fun x hx => h x (by simp [hx])
    cases it with
    | error e => simp [dataSkippable] at hit
    | ok ev =>
      cases ev with
      | text s => simp [dataSkippable] at hit
      | eof => simp [dataSkippable] at hit
      | endTag n =>
        have hn : ¬ n = "data" := by simpa [dataSkippable] using hit
        simpa [decodeCsv, hn] using ih h' rest
      | startTag n attrs => simpa [decodeCsv] using ih h' rest
      | emptyTag n attrs => simpa [decodeCsv] using ih h' rest
      | comment s => simpa [decodeCsv] using ih h' rest
      | other => simpa [decodeCsv] using ih h' rest

/-- Claim C4: for every supported encoding/compression pair, a data element
closed without any text content decodes to the empty cell sequence rather than
an error — intervening ignorable events included — provided each external
decompressor inflates the empty byte sequence to an empty output (the flate2
and zstd readers do). -/
theorem C4_empty_data_is_empty_cells :
    ∀ (zf : Bool) (dec : Decompressors) (e c : Option String)
      (junk rest : Stream) (ts : List MapTilesetGid),
      supportedPair zf e c →
      (∀ it ∈ junk, dataSkippable it) →
      dec.zlib [] = .ok [] → dec.gzip [] = .ok [] → dec.zstd [] = .ok [] →
      parseDataLine zf dec e c (junk ++ .ok (.endTag "data") :: rest) ts = .ok [] := by
  intro zf dec e c junk rest ts hsup hjunk hz hg hzs
  have hb64 : parseBase64 (junk ++ .ok (.endTag "data") :: rest) = .ok ([], rest) := by
    rw [parseBase64_append_skips junk hjunk]
    simp [parseBase64]
  rcases hsup with ⟨he, hc⟩ | ⟨he, hc⟩ | ⟨he, hc⟩ | ⟨he, hc⟩ | ⟨hzf, he, hc⟩
  · subst he; subst hc
    unfold parseDataLine
    rw [if_pos ⟨rfl, rfl⟩, decodeCsv_append_skips ts junk hjunk]
    simp [decodeCsv, Except.map]
  · subst he; subst hc
    unfold parseDataLine
    rw [if_neg (by simp), if_pos ⟨rfl, rfl⟩, hb64]
    simp [Except.map, convertToTiles, chunks4]
  · subst he; subst hc
    unfold parseDataLine
    rw [if_neg (by simp), if_neg (by simp), if_pos ⟨rfl, rfl⟩, hb64]
    simp [Except.bind, processDecoder, hz, Except.map, convertToTiles, chunks4]
  · subst he; subst hc
    unfold parseDataLine
    rw [if_neg (by simp), if_neg (by simp), if_neg (by simp), if_pos ⟨rfl, rfl⟩, hb64]
    simp [Except.bind, processDecoder, hg, Except.map, convertToTiles, chunks4]
  · subst he; subst hc
    unfold parseDataLine
    rw [if_neg (by simp), if_neg (by simp), if_neg (by simp), if_neg (by simp),
      if_pos ⟨hzf, rfl, rfl⟩, hb64]
    simp [Except.bind, processDecoder, hzs, Except.map, convertToTiles, chunks4]

/-- Claim C4 witness: base64 with zlib, one ignored event, then the closing
data tag, with decompressors that inflate empty input to empty output. -/
theorem C4_witness :
    supportedPair true (some "base64") (some "zlib")
    ∧ (∀ it ∈ ([.ok .other] : Stream), dataSkippable it)
    ∧ trivialDecompressors.zlib [] = .ok []
    ∧ parseDataLine true trivialDecompressors (some "base64") (some "zlib")
        ([.ok .other] ++ .ok (.endTag "data") :: []) [] = .ok [] :=
  ⟨by decide, by decide, rfl,
    C4_empty_data_is_empty_cells true trivialDecompressors (some "base64") (some "zlib")
      [.ok .other] [] [] (by decide) (by decide) rfl rfl rfl⟩

/-- The `parse_animation` loop pushes one frame per frame tag, in encounter
order: a successful run consumed exactly the events up to the closing
animation tag and produced the accumulator followed by the frames declared in
the consumed prefix, in declaration order. -/
theorem parseAnimationLoop_order :
    ∀ (stream : Stream) (acc res : List Frame) (rest : Stream),
      parseAnimationLoop stream acc = .ok (res, rest) →
      ∃ consumed, stream = consumed ++ .ok (.endTag "animation") :: rest
        ∧ res = acc ++ framesIn consumed := by
  intro stream
  induction stream with
  | nil =>
    intro acc res rest h
    exact absurd h (by simp [parseAnimationLoop])
  | cons it s ih =>
    intro acc res rest h
    cases it with
    | error e => exact absurd h (by simp [parseAnimationLoop])
    | ok ev =>
      cases ev with
      | startTag n attrs =>
        by_cases hn : n = "frame"
        · subst hn
          cases hf : frameNew attrs with
          | ok f =>
            simp only [parseAnimationLoop, hf, if_true, reduceIte] at h
            obtain ⟨consumed, hs, hres⟩ := ih (acc ++ [f]) res rest h
            exact ⟨.ok (.startTag "frame" attrs) :: consumed,
              by rw [List.cons_append, hs],
              by simp [hres, framesIn, List.filterMap_cons, hf, Except.toOption]⟩
          | error er =>
            simp only [parseAnimationLoop, hf, if_true, reduceIte] at h
            cases h
        · simp only [parseAnimationLoop, if_neg hn] at h
          obtain ⟨consumed, hs, hres⟩ := ih acc res rest h
          exact ⟨.ok (.startTag n attrs) :: consumed,
            by rw [List.cons_append, hs],
            by simp [hres, framesIn, List.filterMap_cons, hn]⟩
      | emptyTag n attrs =>
        by_cases hn : n = "frame"
        · subst hn
          cases hf : frameNew attrs with
          | ok f =>
            simp only [parseAnimationLoop, hf, if_true, reduceIte] at h
            obtain ⟨consumed, hs, hres⟩ := ih (acc ++ [f]) res rest h
            exact ⟨.ok (.emptyTag "frame" attrs) :: consumed,
              by rw [List.cons_append, hs],
              by simp [hres, framesIn, List.filterMap_cons, hf, Except.toOption]⟩
          | error er =>
            simp only [parseAnimationLoop, hf, if_true, reduceIte] at h
            cases h
        · simp only [parseAnimationLoop, if_neg hn] at h
          obtain ⟨consumed, hs, hres⟩ := ih acc res rest h
          exact ⟨.ok (.emptyTag n attrs) :: consumed,
            by rw [List.cons_append, hs],
            by simp [hres, framesIn, List.filterMap_cons, hn]⟩
      | endTag n =>
        by_cases hn : n = "animation"
        · subst hn
          simp only [parseAnimationLoop, if_true, reduceIte] at h
          obtain ⟨rfl, rfl⟩ : acc = res ∧ s = rest := by
            simpa using h
          exact ⟨[], by simp, by simp [framesIn]⟩
        · simp only [parseAnimationLoop, if_neg hn] at h
          obtain ⟨consumed, hs, hres⟩ := ih acc res rest h
          exact ⟨.ok (.endTag n) :: consumed,
            by rw [List.cons_append, hs],
            by simp [hres, framesIn, List.filterMap_cons]⟩
      | text s0 =>
        simp only [parseAnimationLoop] at h
        obtain ⟨consumed, hs, hres⟩ := ih acc res rest h
        exact ⟨.ok (.text s0) :: consumed,
          by rw [List.cons_append, hs],
          by simp [hres, framesIn, List.filterMap_cons]⟩
      | comment s0 =>
        simp only [parseAnimationLoop] at h
        obtain ⟨consumed, hs, hres⟩ := ih acc res rest h
        exact ⟨.ok (.comment s0) :: consumed,
          by rw [List.cons_append, hs],
          by simp [hres, framesIn, List.filterMap_cons]⟩
      | eof => exact absurd h (by simp [parseAnimationLoop])
      | other =>
        simp only [parseAnimationLoop] at h
        obtain ⟨consumed, hs, hres⟩ := ih acc res rest h
        exact ⟨.ok .other :: consumed,
          by rw [List.cons_append, hs],
          by simp [hres, framesIn, List.filterMap_cons]⟩

/-- Claim C5 counterexample: two documents that declare the same two wang
tiles in opposite orders produce identical `WangSet` output, so the output
representation of wang tiles cannot preserve (or even record) declaration
order; the claim fails for wang tiles. -/
theorem C5_counterexample :
    wangSetNew [.wangtile 2 ⟨[2]⟩, .wangtile 1 ⟨[1]⟩]
      = wangSetNew [.wangtile 1 ⟨[1]⟩, .wangtile 2 ⟨[2]⟩]
    ∧ ([.wangtile 2 ⟨[2]⟩, .wangtile 1 ⟨[1]⟩] : List WangSetChild)
      ≠ [.wangtile 1 ⟨[1]⟩, .wangtile 2 ⟨[2]⟩] := by
  exact ⟨rfl, by decide⟩

/-- Claim C5 (amended): declaration-order-sensitive collections other than
wang tiles preserve source order — in particular a successful animation parse
returns exactly the frames declared in the consumed events, in declaration
order, and the wang colors of a wang set are exactly the declared colors in
declaration order; wang tiles instead land in an unordered map keyed by local
tile id. -/
theorem C5_declaration_order_preserved :
    (∀ (stream : Stream) (res : List Frame) (rest : Stream),
        parseAnimation stream = .ok (res, rest) →
        ∃ consumed, stream = consumed ++ .ok (.endTag "animation") :: rest
          ∧ res = framesIn consumed)
    ∧ ∀ children : List WangSetChild,
        (wangSetNew children).wangColors = children.filterMap wangColorOf? := by
  constructor
  · intro stream res rest h
    obtain ⟨consumed, hs, hres⟩ := parseAnimationLoop_order stream [] res rest h
    exact ⟨consumed, hs, by simpa using hres⟩
  · intro children
    have hgen : ∀ (cs : List WangSetChild) (acc : WangSetData),
        (cs.foldl wangSetStep acc).wangColors
          = acc.wangColors ++ cs.filterMap wangColorOf? := by
      intro cs
      induction cs with
      | nil => intro acc; simp
      | cons ch cs ih =>
        intro acc
        cases ch with
        | wangcolor name tile => simp [wangSetStep, wangColorOf?, ih]
        | wangtile id t => simp [wangSetStep, wangColorOf?, ih]
        | propertiesTag => simp [wangSetStep, wangColorOf?, ih]
        | unknown => simp [wangSetStep, wangColorOf?, ih]
    simpa [wangSetNew] using hgen children ⟨[], []⟩

/-- Claim C5 witness: a single empty frame tag followed by the closing
animation tag parses to exactly that frame, which is the frame list of the
consumed prefix. -/
theorem C5_witness :
    parseAnimation [.ok (.emptyTag "frame" [("tileid", "1"), ("duration", "2")]),
        .ok (.endTag "animation")] = .ok ([⟨1, 2⟩], [])
    ∧ ∃ consumed,
        ([.ok (.emptyTag "frame" [("tileid", "1"), ("duration", "2")]),
          .ok (.endTag "animation")] : Stream)
          = consumed ++ .ok (.endTag "animation") :: ([] : Stream)
        ∧ [(⟨1, 2⟩ : Frame)] = framesIn consumed := by
  have hrun : parseAnimation [.ok (.emptyTag "frame" [("tileid", "1"), ("duration", "2")]),
      .ok (.endTag "animation")] = .ok ([⟨1, 2⟩], []) := by rfl
  exact ⟨hrun, C5_declaration_order_preserved.1 _ [⟨1, 2⟩] [] hrun⟩

end RsTiled
